import Mathlib

/-!
Verification of the core of the dance-video catalog application
(src/app.py) against its natural-language specification.

The file shallowly embeds the data model and the operations the claims
talk about: the in-memory table (a list of rows whose cells may be
empty, since pandas reads blank spreadsheet cells as NaN), the filter
engine, the vocabulary indexer, the thumbnail resolver, the By Dance
bucketing, the schema normalizer, the mutation coordinator and the
By Dancer alphabet-index bucketing.  Definitions are translated from
the python source; where the source calls into a library the relevant
library semantics is embedded as well (the regular-expression search
used by pandas str.contains and by the thumbnail resolver), restricted
to the construct subset the program actually exercises.
-/

namespace VideoApp

/-- One table row.  Every cell is `Option String`: `none` models a pandas
NaN coming from an empty spreadsheet cell. -/
structure Row where
  dancer   : Option String
  category : Option String
  imageUrl : Option String
  videoUrl : Option String
  memo     : Option String
  platform : Option String
deriving DecidableEq

/-! ## Regular-expression search, as used by pandas str.contains

The keyword filter in app.py line 349 calls
str.contains(keyword, case=False, na=False); pandas interprets the
keyword as a regular expression (regex=True is the default) and searches
it with re.IGNORECASE.  The embedding supports the pattern constructs a
vocabulary keyword can contain: literal characters and the dot wildcard
(which in python matches any character except a newline).  `parsePat`
maps every other character, metacharacter or not, to a literal, so
theorems that depend on the translation being exact for general patterns
hypothesise metacharacter-free keywords.  Case folding is the ASCII
`Char.toLower`, matching python for the ASCII range. -/

/-- A token of the embedded regular-expression pattern language. -/
inductive PatTok where
  | lit (c : Char)
  | dot
deriving DecidableEq

/-- Matching of one pattern token against one character, with
re.IGNORECASE semantics for literals. -/
def tokMatches (t : PatTok) (c : Char) : Bool :=
  match t with
  | .lit l => l.toLower == c.toLower
  | .dot   => c != '\n'

/-- Matching of a whole pattern against a prefix of the subject. -/
def matchAt : List PatTok → List Char → Bool
  | [], _ => true
  | _ :: _, [] => false
  | t :: p, c :: s => tokMatches t c && matchAt p s

/-- re.search: try to match the pattern at each position, left to
right. -/
def reSearch (p : List PatTok) : List Char → Bool
  | [] => matchAt p []
  | c :: s => matchAt p (c :: s) || reSearch p s

/-- Translation of a keyword string into the embedded pattern language. -/
def parsePatL (cs : List Char) : List PatTok :=
  cs.map (fun c => if c == '.' then PatTok.dot else PatTok.lit c)

/-- Pattern of a keyword, as pandas str.contains compiles it. -/
def parsePat (k : String) : List PatTok :=
  parsePatL k.data

/-- Characters that are special in python regular expressions.  A keyword
avoiding all of them is matched purely literally. -/
def reMetachars : List Char :=
  ['.', '^', '$', '*', '+', '?', '\x7b', '\x7d', '[', ']', '\\', '|', '(', ')']

/-- A keyword free of regular-expression metacharacters. -/
def plainKeyword (k : String) : Bool :=
  k.data.all (fun c => !(reMetachars.contains c))

/-- Boolean substring test on character lists. -/
def containsSub (needle : List Char) : List Char → Bool
  | [] => needle.isEmpty
  | c :: t => needle.isPrefixOf (c :: t) || containsSub needle t

/-- Case-insensitive substring containment: the reading of
str.contains that the specification describes. -/
def containsCI (m k : String) : Bool :=
  containsSub (k.data.map Char.toLower) (m.data.map Char.toLower)

/-! ## Filter engine (app.py lines 334-349) -/

/-- Membership filter for the dancer and discipline facets, pandas
Series.isin: a NaN cell never matches. -/
def isinFilter (sel : List String) (v : Option String) : Bool :=
  match v with
  | some s => sel.contains s
  | none => false

/-- Keyword test of one row, str.contains(keyword, case=False, na=False)
on the memo column: a NaN memo never matches (na=False). -/
def memoMatches (memo : Option String) (k : String) : Bool :=
  match memo with
  | none => false
  | some m => reSearch (parsePat k) m.data

/-- Substring reading of `memoMatches`, following the specification
wording; used to compare the code against the spec. -/
def memoContainsCI (memo : Option String) (k : String) : Bool :=
  match memo with
  | none => false
  | some m => containsCI m k

/-- The keyword loop of app.py lines 348-349: one pandas filter per
selected keyword, applied in sequence (AND semantics). -/
def filterKeywords (t : List Row) (ks : List String) : List Row :=
  ks.foldl (fun acc k => acc.filter (fun r => memoMatches r.memo k)) t

/-- The whole filter stage, app.py lines 334-349.  Each facet is guarded
by python truthiness of the selection list, so an empty selection is
skipped. -/
def applyFilters (t : List Row) (dancers disciplines keywords : List String) :
    List Row :=
  let t1 := if dancers.isEmpty then t
            else t.filter (fun r => isinFilter dancers r.dancer)
  let t2 := if disciplines.isEmpty then t1
            else t1.filter (fun r => isinFilter disciplines r.category)
  if keywords.isEmpty then t2 else filterKeywords t2 keywords

/-! ## Thumbnail resolver (app.py lines 586-596)

get_thumbnail_url searches the video URL with the pattern
(?:v=|\/|be\/|embed\/)([0-9A-Za-z_-]{11}) and builds a fixed-template
thumbnail URL from the captured identifier.  The search is embedded
directly: at each position, the four alternatives are tried in pattern
order, and a candidate identifier is the next eleven characters, all of
which must belong to the character class. -/

/-- Membership in the character class [0-9A-Za-z_-]. -/
def idChar (c : Char) : Bool :=
  ('0' ≤ c && c ≤ '9') || ('A' ≤ c && c ≤ 'Z') || ('a' ≤ c && c ≤ 'z') ||
  c == '_' || c == '-'

/-- The four alternatives of the non-capturing group, in pattern order. -/
def thumbAlts : List (List Char) :=
  ["v=".data, "/".data, "be/".data, "embed/".data]

/-- Attempted match of one alternative at the current position: the
alternative must be a prefix here, followed by exactly eleven
identifier characters. -/
def tryAlt (s alt : List Char) : Option (List Char) :=
  if alt.isPrefixOf s then
    let cand := (s.drop alt.length).take 11
    if cand.length == 11 && cand.all idChar then some cand else none
  else none

/-- Scan of the subject, leftmost match first (re.search semantics). -/
def findVideoId (s : List Char) : Option (List Char) :=
  match s with
  | [] => none
  | _ :: rest =>
    match thumbAlts.findSome? (tryAlt s) with
    | some v => some v
    | none => findVideoId rest

/-- get_thumbnail_url, app.py lines 586-596.  A falsy (empty) URL and a
failed search both yield the empty string. -/
def get_thumbnail_url (videoUrl : String) : String :=
  if videoUrl == "" then ""
  else
    match findVideoId videoUrl.data with
    | some v => "https://img.youtube.com/vi/" ++ String.mk v ++ "/hqdefault.jpg"
    | none => ""

/-! ## Vocabulary indexer (app.py lines 318-329)

Each memo is split with re.split on the pattern [\s,、。]+, empty tokens
are discarded, the tokens are collected into a set and the set is
sorted.  \s is embedded as the full python unicode whitespace set. -/

/-- The python regular-expression \s character set (unicode mode):
ASCII whitespace, the C1 controls python treats as spaces, and the
unicode space separators including the full-width space U+3000. -/
def pySpace (c : Char) : Bool :=
  c == ' ' || c == '\t' || c == '\n' || c == '\r' || c == '\x0b' ||
  c == '\x0c' || c == '\x1c' || c == '\x1d' || c == '\x1e' || c == '\x1f' ||
  c == '\x85' || c == '\xa0' || c == '\u1680' ||
  ('\u2000' ≤ c && c ≤ '\u200a') || c == '\u2028' || c == '\u2029' ||
  c == '\u202f' || c == '\u205f' || c == '\u3000'

/-- A separator of the tokenizer: whitespace, the ASCII comma, the
ideographic comma or the ideographic full stop. -/
def memoSep (c : Char) : Bool :=
  pySpace c || c == ',' || c == '、' || c == '。'

/-- Splitting on runs of separator characters; only the nonempty tokens
are produced, matching the comprehension that drops falsy tokens. -/
def splitOn (sep : Char → Bool) (cs : List Char) : List (List Char) :=
  match cs with
  | [] => []
  | c :: rest =>
    if sep c then splitOn sep rest
    else (c :: rest.takeWhile (fun d => !sep d)) ::
         splitOn sep (rest.dropWhile (fun d => !sep d))
termination_by cs.length
decreasing_by
  · simp
  · simp only [List.length_cons]
    exact Nat.lt_succ_of_le (List.dropWhile_sublist _).length_le

/-- The memo splitter of app.py line 326. -/
def splitRuns (cs : List Char) : List (List Char) :=
  splitOn memoSep cs

/-- Tokens of one memo value. -/
def memoTokens (m : String) : List String :=
  (splitRuns m.data).map String.mk

/-- Code-point lexicographic comparison on character lists; this is how
python compares strings. -/
def lexLe : List Char → List Char → Bool
  | [], _ => true
  | _ :: _, [] => false
  | a :: as, b :: bs => if a < b then true else if b < a then false else lexLe as bs

/-- Code-point lexicographic comparison on strings. -/
def strLe (a b : String) : Bool :=
  lexLe a.data b.data

/-- The vocabulary: tokens of all memos, deduplicated (the python set)
and sorted ascending (python sorted).  The deduplicated input makes the
sorted result independent of the sorting algorithm, so the structural
insertion sort stands in for python sorted. -/
def sorted_vocab (memos : List String) : List String :=
  List.insertionSort (fun a b => strLe a b = true)
    ((memos.flatMap memoTokens).dedup)

/-! ## By Dance view (app.py lines 1155-1218) -/

/-- The five named disciplines of the By Dance view. -/
def mainCategories : List String := ["W", "T", "F", "Q", "V"]

/-- The buckets of the By Dance view, in render order. -/
def danceTargets : List String := ["W", "T", "F", "Q", "V", "Other"]

/-- Bucket membership of one row: equality with the target discipline
for the five named buckets, and the complement of isin on the named set
for Other.  A NaN category compares unequal to every target and lands in
Other. -/
def bucketPred (target : String) (r : Row) : Bool :=
  if target == "Other" then !(isinFilter mainCategories r.category)
  else
    match r.category with
    | some c => c == target
    | none => false

/-- Row comparison by dancer name, the sort key of sort_values on the
dancer column inside each bucket; pandas places NaN keys last. -/
def dancerLe (a b : Row) : Bool :=
  match a.dancer, b.dancer with
  | none, none => true
  | none, some _ => false
  | some _, none => true
  | some x, some y => lexLe x.data y.data

/-- Sorting of one bucket by dancer name.  The source calls pandas
sort_values with its default sort kind; the embedding uses a structural
insertion sort and the claims rely only on order-insensitive
consequences (sortedness of the keys and multiset equality), which hold
for any correct sorting routine. -/
def sortByDancer (t : List Row) : List Row :=
  List.insertionSort (fun a b => dancerLe a b = true) t

/-- The rendered By Dance buckets: for each target in order, the rows of
the filtered table in that bucket, sorted by dancer name. -/
def byDanceBuckets (t : List Row) : List (String × List Row) :=
  danceTargets.map (fun tg => (tg, sortByDancer (t.filter (bucketPred tg))))

/-! ## Mutation coordinator (app.py lines 429-447, 487-565)

The store is the remote table plus the optional session cache written
by the st.cache_data wrapper around load_data.  The add handler builds
its new table from the module-level df, which is the cached load; the
edit and delete dialogs call conn.read directly, a fresh read of the
remote table that bypasses the cache. -/

/-- The remote spreadsheet plus the session load cache. -/
structure StoreState where
  remote : List Row
  cache  : Option (List Row)
deriving DecidableEq

/-- load_data through st.cache_data: the cached table when one exists,
otherwise a fresh read that would populate the cache. -/
def load_data (s : StoreState) : List Row :=
  s.cache.getD s.remote

/-- conn.read inside the dialogs: a direct fresh read of the remote
table. -/
def freshRead (s : StoreState) : List Row :=
  s.remote

/-- The Register handler, app.py lines 429-447: the new row is appended
to df (the cached load) and the result is written back; on success the
cache is cleared. -/
def registerAdd (s : StoreState) (newRow : Row) : StoreState :=
  { remote := load_data s ++ [newRow], cache := none }

/-- The values collected by the edit dialog form. -/
structure EditValues where
  dancer   : String
  category : String
  imageUrl : String
  videoUrl : String
  memo     : String
deriving DecidableEq

/-- The five cell assignments of app.py lines 536-540, applied to the
row at the positional index; the platform cell is untouched. -/
def updateRowCells (e : EditValues) (finalImg : String) (r : Row) : Row :=
  { r with dancer := some e.dancer, category := some e.category,
           imageUrl := some finalImg, videoUrl := some e.videoUrl,
           memo := some e.memo }

/-- Replacement of the row at index `i` by its image under `f`. -/
def setRowAt (t : List Row) (i : Nat) (f : Row → Row) : List Row :=
  match t, i with
  | [], _ => []
  | r :: rest, 0 => f r :: rest
  | r :: rest, n + 1 => r :: setRowAt rest n f

/-- Outcome of the edit dialog submitted branch: whether a table write
was attempted, and the resulting store. -/
structure EditOutcome where
  wrote : Bool
  store : StoreState
deriving DecidableEq

/-- The submitted branch of edit_video_dialog, app.py lines 511-547.
`uploadedFile` is whether an image file was supplied; `uploadResult`
models the return of upload_image_to_drive (`none` is a failed upload).
A failed upload reaches st.stop before any table read or write, leaving
the store untouched; otherwise the fresh remote table is read, the row
at the index is updated (with the uploaded link taking priority over
the image URL field) and the whole table is written back, clearing the
cache. -/
def editSubmit (s : StoreState) (i : Nat) (e : EditValues)
    (uploadedFile : Bool) (uploadResult : Option String) : EditOutcome :=
  if uploadedFile then
    match uploadResult with
    | none => { wrote := false, store := s }
    | some link =>
      { wrote := true,
        store := { remote := setRowAt (freshRead s) i (updateRowCells e link),
                   cache := none } }
  else
    { wrote := true,
      store := { remote := setRowAt (freshRead s) i (updateRowCells e e.imageUrl),
                 cache := none } }

/-- The delete dialog, app.py lines 549-565: fresh read, positional row
drop, full write back, cache cleared. -/
def deleteSubmit (s : StoreState) (i : Nat) : StoreState :=
  { remote := (freshRead s).eraseIdx i, cache := none }

/-! ## Schema normalizer (app.py lines 146-168, 273-285)

The raw table is headers plus rows of optional cells.  Normalization
strips the headers, fails listing the missing required columns, adds an
empty memo column when none is named, positionally renames column index
2 to platform (or appends a default platform column when fewer than
three columns exist), and coerces NaN memo and platform cells to the
defaults. -/

/-- A raw loaded table: header names and rows of cells; an empty cell is
`none`. -/
structure RawTable where
  headers : List String
  rows    : List (List (Option String))
deriving DecidableEq

/-- The four required column names of app.py line 160. -/
def requiredCols : List String := ["ダンサー", "種目", "画像URL", "動画URL"]

/-- Index of the first column with the given name. -/
def colIdx (name : String) : List String → Option Nat
  | [] => none
  | h :: hs => if h == name then some 0 else (colIdx name hs).map (· + 1)

/-- Values of the first column with the given name. -/
def colValues (name : String) (t : RawTable) : Option (List (Option String)) :=
  (colIdx name t.headers).map (fun i => t.rows.map (fun r => r.getD i none))

/-- python str.strip: whitespace removed from both ends. -/
def pyStrip (s : String) : String :=
  String.mk (((s.data.dropWhile pySpace).reverse.dropWhile pySpace).reverse)

/-- df.columns.str.strip of app.py line 154. -/
def stripHeaders (t : RawTable) : RawTable :=
  { t with headers := t.headers.map (fun h => pyStrip h) }

/-- app.py lines 167-168: when no memo column is named, an empty string
memo column is appended. -/
def ensureMemo (t : RawTable) : RawTable :=
  if t.headers.contains "メモ" then t
  else { headers := t.headers ++ ["メモ"],
         rows := t.rows.map (fun r => r ++ [some ""]) }

/-- app.py lines 275-282: with at least three columns, the column at
index 2 is renamed to platform (a no-op when already so named);
otherwise a default platform column is appended. -/
def ensurePlatform (t : RawTable) : RawTable :=
  if 3 ≤ t.headers.length then
    if t.headers.getD 2 "" == "platform" then t
    else { t with headers := t.headers.set 2 "platform" }
  else { headers := t.headers ++ ["platform"],
         rows := t.rows.map (fun r => r ++ [some "YouTube"]) }

/-- fillna on one named column: every NaN cell of the first column with
that name becomes the default string. -/
def fillCol (name dflt : String) (t : RawTable) : RawTable :=
  match colIdx name t.headers with
  | none => t
  | some i =>
    { t with rows := t.rows.map (fun r => r.set i (some ((r.getD i none).getD dflt))) }

/-- The whole load-and-normalize pipeline of app.py lines 146-285:
strip the headers, fail listing the missing required columns, default
the memo column, positionally map the platform column, fill NaN memo
and platform cells. -/
def loadTable (t0 : RawTable) : Except (List String) RawTable :=
  let t := stripHeaders t0
  let missing := requiredCols.filter (fun c => !(t.headers.contains c))
  if missing.isEmpty then
    Except.ok (fillCol "platform" "YouTube"
      (fillCol "メモ" "" (ensurePlatform (ensureMemo t))))
  else
    Except.error missing

/-! ## By Dancer alphabet-index bucketing (app.py lines 841-872)

The loop computes, for each dancer of the sorted unique list, an
initial bucket.  The python local `romaji` is assigned only in the
branch for a nonempty string dancer; for a NaN or empty dancer the
branch assigns a dead placeholder and the following test reads `romaji`
as left by the previous iteration, raising UnboundLocalError on the
first iteration.  The embedding threads the variable explicitly:
`none` is the unbound state and reading it in that state aborts the
whole computation.  The transliterator conv.do is an injected
parameter, as the specification itself suggests; a raised conversion
error maps to `some none` (the python except branch assigns None). -/

/-- python str.isalpha restricted to the ASCII range, which covers every
romanized initial the loop produces. -/
def pyIsAlphaStr (s : String) : Bool :=
  !s.isEmpty && s.data.all Char.isAlpha

/-- The initial computed from the current value of the `romaji`
variable: the uppercased first character, with a falsy or empty
romanization giving the placeholder, and every non-alphabetic initial
collapsing to the catch-all bucket. -/
def initialOf (romaji : Option String) : String :=
  let ini : String :=
    match romaji with
    | none => "?"
    | some s =>
      match s.data with
      | [] => "?"
      | c :: _ => String.mk [c.toUpper]
  if pyIsAlphaStr ini then ini else "#"

/-- One iteration of the bucketing loop.  A dancer that is a nonempty
string gets a fresh romanization; any other dancer reads the stale
`romaji` variable, which aborts (python UnboundLocalError) when the
variable was never assigned. -/
def dancerInitialStep (convDo : String → Option String)
    (romajiVar : Option (Option String)) (dancer : Option String) :
    Option (String × Option (Option String)) :=
  match dancer with
  | some s =>
    if s.isEmpty then
      match romajiVar with
      | none => none
      | some r => some (initialOf r, some r)
    else
      let romaji := convDo s
      some (initialOf romaji, some romaji)
  | none =>
    match romajiVar with
    | none => none
    | some r => some (initialOf r, some r)

/-- The bucketing loop over the dancer list, threading the `romaji`
variable; `none` is the UnboundLocalError abort. -/
def dancerInitialsGo (convDo : String → Option String)
    (romajiVar : Option (Option String)) :
    List (Option String) → Option (List String)
  | [] => some []
  | d :: ds =>
    match dancerInitialStep convDo romajiVar d with
    | none => none
    | some (ini, rv) => (dancerInitialsGo convDo rv ds).map (fun rest => ini :: rest)

/-- The initial bucket assigned to each dancer by the loop of app.py
lines 844-866, in order; `none` is the UnboundLocalError crash. -/
def dancerInitials (convDo : String → Option String)
    (dancers : List (Option String)) : Option (List String) :=
  dancerInitialsGo convDo none dancers

/-- Values of a named column of a successfully loaded table; `none` for
a failed load or an absent column. -/
def okColValues (name : String) : Except (List String) RawTable → Option (List (Option String))
  | Except.error _ => none
  | Except.ok t => colValues name t

/-! ## Sample data used by counterexamples and witnesses -/

/-- A row with every cell empty. -/
def blankRow : Row :=
  { dancer := none, category := none, imageUrl := none, videoUrl := none,
    memo := none, platform := none }

/-- A sample existing row of the remote table. -/
def rowA : Row :=
  { blankRow with dancer := some "Alice", category := some "W",
                  videoUrl := some "https://a.example" }

/-- A sample row being registered. -/
def rowB : Row :=
  { blankRow with dancer := some "Bob", category := some "T",
                  videoUrl := some "https://b.example" }

/-- A row whose memo is the subject of the keyword counterexample. -/
def rowAxb : Row :=
  { blankRow with memo := some "axb" }

/-- A row whose memo matches the keyword spin. -/
def rowSpin : Row :=
  { blankRow with dancer := some "Alice", category := some "W",
                  memo := some "fast spin" }

/-- A six-column raw table with no named memo column; the sixth column
holds data the claimed positional fallback would map to memo. -/
def rawSixCols : RawTable :=
  { headers := ["ダンサー", "種目", "Site", "画像URL", "動画URL", "tags"],
    rows := [[some "A", some "W", some "YT", none, some "u", some "tag6"]] }

/-- A five-column raw table used to instantiate the schema theorem. -/
def rawFiveCols : RawTable :=
  { headers := ["ダンサー", "種目", "Site", "画像URL", "動画URL"],
    rows := [[some "A", some "W", none, none, some "u"]] }

/-! ## Helper lemmas -/

/-- Matching a purely literal pattern is a case-folded prefix test. -/
theorem matchAt_lit : ∀ p s : List Char,
    matchAt (p.map PatTok.lit) s
      = (p.map Char.toLower).isPrefixOf (s.map Char.toLower) := by
  intro p
  induction p with
  | nil => intro s; simp [matchAt]
  | cons a as ih =>
    intro s
    cases s with
    | nil => simp [matchAt]
    | cons b bs => simp [matchAt, List.isPrefixOf, tokMatches, ih]

/-- Searching a purely literal pattern is a case-folded substring test. -/
theorem reSearch_lit : ∀ s p : List Char,
    reSearch (p.map PatTok.lit) s
      = containsSub (p.map Char.toLower) (s.map Char.toLower) := by
  intro s
  induction s with
  | nil =>
    intro p
    cases p with
    | nil => simp [reSearch, matchAt, containsSub]
    | cons a as => simp [reSearch, matchAt, containsSub]
  | cons c cs ih =>
    intro p
    simp [reSearch, containsSub, matchAt_lit, ih]

/-- A pattern with no dot parses to a list of literals. -/
theorem parsePatL_plain (cs : List Char) (h : ∀ c ∈ cs, (c == '.') = false) :
    parsePatL cs = cs.map PatTok.lit := by
  unfold parsePatL
  apply List.map_congr_left
  intro c hc
  simp [h c hc]

/-- On metacharacter-free keywords the embedded pandas test coincides
with case-insensitive substring containment. -/
theorem memoMatches_plain (memo : Option String) (k : String)
    (h : plainKeyword k = true) :
    memoMatches memo k = memoContainsCI memo k := by
  have hdot : ∀ c ∈ k.data, (c == '.') = false := by
    intro c hc
    have hmc := (List.all_eq_true.mp h) c hc
    by_cases hcd : c = '.'
    · subst hcd
      simp [reMetachars] at hmc
    · simp [hcd]
  cases memo with
  | none => rfl
  | some m =>
    simp [memoMatches, memoContainsCI, containsCI, parsePat,
          parsePatL_plain k.data hdot, reSearch_lit]

/-- The sequential keyword filter loop equals one filter by the
conjunction of all keyword tests. -/
theorem filterKeywords_eq_filter : ∀ (ks : List String) (t : List Row),
    filterKeywords t ks
      = t.filter (fun r => ks.all (fun k => memoMatches r.memo k)) := by
  intro ks
  induction ks with
  | nil => intro t; simp [filterKeywords]
  | cons k ks ih =>
    intro t
    have step : filterKeywords t (k :: ks)
        = filterKeywords (t.filter (fun r => memoMatches r.memo k)) ks := rfl
    rw [step, ih, List.filter_filter]
    apply List.filter_congr
    intro r _
    simp [Bool.and_comm]

/-- Pointwise equal predicates give equal list-all results. -/
theorem all_eq_of_mem_eq {α : Type} (l : List α) (f g : α → Bool)
    (h : ∀ a ∈ l, f a = g a) : l.all f = l.all g := by
  induction l with
  | nil => rfl
  | cons a as ih =>
    simp only [List.all_cons]
    rw [h a (by simp), ih (fun b hb => h b (by simp [hb]))]

/-- Transitivity of the code-point lexicographic comparison. -/
theorem lexLe_trans : ∀ x y z : List Char,
    lexLe x y = true → lexLe y z = true → lexLe x z = true := by
  intro x
  induction x with
  | nil => intro y z _ _; rfl
  | cons a as ih =>
    intro y z hxy hyz
    cases y with
    | nil => simp [lexLe] at hxy
    | cons b bs =>
      cases z with
      | nil => simp [lexLe] at hyz
      | cons c cs =>
        simp only [lexLe] at hxy hyz ⊢
        by_cases hab : a < b
        · by_cases hbc : b < c
          · simp [lt_trans hab hbc]
          · by_cases hcb : c < b
            · simp [hbc, hcb] at hyz
            · have hbceq : b = c := le_antisymm (not_lt.mp hcb) (not_lt.mp hbc)
              subst hbceq
              simp [hab]
        · by_cases hba : b < a
          · simp [hab, hba] at hxy
          · have habeq : a = b := le_antisymm (not_lt.mp hba) (not_lt.mp hab)
            subst habeq
            simp only [lt_irrefl, if_false] at hxy hyz ⊢
            by_cases hac : a < c
            · simp [hac]
            · by_cases hca : c < a
              · simp [hac, hca] at hyz
              · have haceq : a = c := le_antisymm (not_lt.mp hca) (not_lt.mp hac)
                subst haceq
                simp only [lt_irrefl, if_false] at hxy hyz ⊢
                exact ih bs cs hxy hyz

/-- Totality of the code-point lexicographic comparison. -/
theorem lexLe_total : ∀ x y : List Char,
    lexLe x y = true ∨ lexLe y x = true := by
  intro x
  induction x with
  | nil => intro y; left; rfl
  | cons a as ih =>
    intro y
    cases y with
    | nil => right; rfl
    | cons b bs =>
      simp only [lexLe]
      by_cases hab : a < b
      · left; simp [hab]
      · by_cases hba : b < a
        · right; simp [hab, hba]
        · have habeq : a = b := le_antisymm (not_lt.mp hba) (not_lt.mp hab)
          subst habeq
          simp only [lt_irrefl, if_false]
          exact ih bs

/-- Antisymmetry of the code-point lexicographic comparison. -/
theorem lexLe_antisymm : ∀ x y : List Char,
    lexLe x y = true → lexLe y x = true → x = y := by
  intro x
  induction x with
  | nil =>
    intro y hxy hyx
    cases y with
    | nil => rfl
    | cons b bs => simp [lexLe] at hyx
  | cons a as ih =>
    intro y hxy hyx
    cases y with
    | nil => simp [lexLe] at hxy
    | cons b bs =>
      simp only [lexLe] at hxy hyx
      by_cases hab : a < b
      · simp [hab, asymm hab] at hyx
      · by_cases hba : b < a
        · simp [hab, hba] at hxy
        · have habeq : a = b := le_antisymm (not_lt.mp hba) (not_lt.mp hab)
          subst habeq
          simp only [lt_irrefl, if_false] at hxy hyx
          rw [ih bs hxy hyx]

/-- Every token produced by the splitter is nonempty and free of
separator characters. -/
theorem splitOn_tokens (sep : Char → Bool) : ∀ cs : List Char,
    ∀ tok ∈ splitOn sep cs, tok ≠ [] ∧ ∀ c ∈ tok, sep c = false := by
  intro cs
  induction cs using splitOn.induct sep with
  | case1 =>
    intro tok htok
    rw [splitOn] at htok
    simp at htok
  | case2 c rest hsep ih =>
    intro tok htok
    rw [splitOn, if_pos hsep] at htok
    exact ih tok htok
  | case3 c rest hsep ih =>
    intro tok htok
    rw [splitOn, if_neg hsep] at htok
    rcases List.mem_cons.mp htok with heq | hmem
    · subst heq
      refine ⟨by simp, ?_⟩
      intro d hd
      rcases List.mem_cons.mp hd with hdc | hdt
      · subst hdc
        exact Bool.of_not_eq_true hsep
      · have := List.mem_takeWhile_imp hdt
        simpa using this
    · exact ih tok hmem

/-! ## Claim theorems -/

/-- C2 counterexample: with the keyword a.b the code retains a row whose
memo is axb, although the memo does not contain the keyword as a
case-insensitive substring: pandas str.contains interprets the keyword
as a regular expression, where the dot matches any character.  This
refutes the retained-only-if-substring direction of the claim. -/
theorem C2_counterexample :
    filterKeywords [rowAxb] ["a.b"] = [rowAxb]
    ∧ memoContainsCI rowAxb.memo "a.b" = false := by
  constructor
  · rfl
  · rfl

/-- C2 (amended): for every table and every non-empty keyword list whose
keywords are free of regular-expression metacharacters, the keyword
filter is conjunctive: the result is a subsequence of the table, a
record is retained iff its memo contains every keyword as a
case-insensitive substring, and a record with a missing memo is never
retained. -/
theorem C2_keyword_filter (t : List Row) (ks : List String)
    (hne : ks ≠ []) (hplain : ∀ k ∈ ks, plainKeyword k = true) :
    filterKeywords t ks
      = t.filter (fun r => ks.all (fun k => memoContainsCI r.memo k))
    ∧ List.Sublist (filterKeywords t ks) t
    ∧ (∀ r ∈ filterKeywords t ks,
        r.memo ≠ none ∧ ∀ k ∈ ks, memoContainsCI r.memo k = true)
    ∧ (∀ r ∈ t,
        (r ∈ filterKeywords t ks ↔ ∀ k ∈ ks, memoContainsCI r.memo k = true)) := by
  have heq : filterKeywords t ks
      = t.filter (fun r => ks.all (fun k => memoContainsCI r.memo k)) := by
    rw [filterKeywords_eq_filter]
    apply List.filter_congr
    intro r _
    exact all_eq_of_mem_eq ks _ _ (fun k hk => memoMatches_plain r.memo k (hplain k hk))
  refine ⟨heq, ?_, ?_, ?_⟩
  · rw [heq]; exact List.filter_sublist t
  · intro r hr
    rw [heq] at hr
    have hall := (List.mem_filter.mp hr).2
    have hks : ∀ k ∈ ks, memoContainsCI r.memo k = true := List.all_eq_true.mp hall
    refine ⟨?_, hks⟩
    obtain ⟨k0, hk0⟩ := List.exists_mem_of_ne_nil ks hne
    intro hnone
    have := hks k0 hk0
    rw [hnone] at this
    simp [memoContainsCI] at this
  · intro r hrt
    rw [heq]
    constructor
    · intro hr
      exact List.all_eq_true.mp (List.mem_filter.mp hr).2
    · intro hks
      exact List.mem_filter.mpr ⟨hrt, List.all_eq_true.mpr hks⟩

/-- C2 witness: the amended theorem applied to a concrete table and the
concrete plain keyword spin. -/
theorem C2_keyword_filter_witness :
    filterKeywords [rowSpin] ["spin"]
      = [rowSpin].filter (fun r => ["spin"].all (fun k => memoContainsCI r.memo k)) :=
  (C2_keyword_filter [rowSpin] ["spin"] (by decide) (by decide)).1

/-- C3: the filter engine with empty dancer, discipline and keyword
selections is a pass-through: each facet is guarded by python
truthiness of its selection list, so the table is returned unchanged in
content and order. -/
theorem C3_empty_filters_identity (t : List Row) :
    applyFilters t [] [] [] = t := rfl

/-- C6: thumbnail resolution is a total function of the video URL.  The
youtu.be example resolves to the fixed-template URL containing the
identifier, the empty URL and the identifier-free URL resolve to the
empty string, and every URL in which the pattern search finds no
identifier resolves to the empty string. -/
theorem C6_thumbnail_resolution (url : String) :
    get_thumbnail_url "https://youtu.be/dQw4w9WgXcQ"
      = "https://img.youtube.com/vi/dQw4w9WgXcQ/hqdefault.jpg"
    ∧ ("dQw4w9WgXcQ".data.isPrefixOf
        ((get_thumbnail_url "https://youtu.be/dQw4w9WgXcQ").data.drop 27)) = true
    ∧ get_thumbnail_url "" = ""
    ∧ get_thumbnail_url "https://example.com/no-id-here" = ""
    ∧ (findVideoId url.data = none → get_thumbnail_url url = "") := by
  refine ⟨by decide, by decide, rfl, by decide, ?_⟩
  intro h
  unfold get_thumbnail_url
  by_cases hurl : url == ""
  · simp [hurl]
  · simp [hurl, h]

/-- C6 witness: the no-identifier clause applied to a concrete URL. -/
theorem C6_thumbnail_resolution_witness :
    get_thumbnail_url "https://example.org/ab" = "" :=
  (C6_thumbnail_resolution "https://example.org/ab").2.2.2.2 (by decide)

/-- C7: the vocabulary built from the memo column is a deduplicated list
sorted ascending by code point (strictly increasing, hence duplicate
free) of the tokens obtained by splitting each memo on runs of
whitespace (including the full-width space) and the comma, ideographic
comma and ideographic full stop, with empty tokens discarded; a word is
in the vocabulary iff it is a token of some memo, every vocabulary word
is nonempty and separator free, and build on the example memos gives
the claimed list. -/
theorem C7_vocabulary_build (memos : List String) :
    sorted_vocab ["a b", "b c"] = ["a", "b", "c"]
    ∧ (sorted_vocab memos).Pairwise (fun a b => strLe a b = true ∧ a ≠ b)
    ∧ (∀ w, w ∈ sorted_vocab memos ↔ ∃ m ∈ memos, w ∈ memoTokens m)
    ∧ (∀ w ∈ sorted_vocab memos, w ≠ "" ∧ ∀ c ∈ w.data, memoSep c = false) := by
  have hperm : List.Perm (sorted_vocab memos) ((memos.flatMap memoTokens).dedup) :=
    List.perm_insertionSort _ _
  refine ⟨by simp +decide [sorted_vocab, memoTokens, splitRuns, splitOn], ?_, ?_, ?_⟩
  · have hs : (sorted_vocab memos).Pairwise (fun a b => strLe a b = true) := by
      haveI : IsTotal String (fun a b => strLe a b = true) :=
        ⟨fun a b => lexLe_total a.data b.data⟩
      haveI : IsTrans String (fun a b => strLe a b = true) :=
        ⟨fun a b c hab hbc => lexLe_trans a.data b.data c.data hab hbc⟩
      exact List.sorted_insertionSort _ _
    have hnd : (sorted_vocab memos).Nodup :=
      hperm.symm.nodup (List.nodup_dedup _)
    exact hs.and hnd
  · intro w
    rw [hperm.mem_iff, List.mem_dedup, List.mem_flatMap]
  · intro w hw
    have hw2 : w ∈ memos.flatMap memoTokens := by
      rw [← List.mem_dedup]
      exact hperm.mem_iff.mp hw
    obtain ⟨m, hm, hwm⟩ := List.mem_flatMap.mp hw2
    obtain ⟨tok, htok, hmk⟩ := List.mem_map.mp hwm
    obtain ⟨hne, hsep⟩ := splitOn_tokens memoSep m.data tok htok
    subst hmk
    constructor
    · intro hemp
      apply hne
      have := congrArg String.data hemp
      simpa using this
    · intro c hc
      exact hsep c (by simpa using hc)

/-- C7 witness: the vocabulary of the two example memos. -/
theorem C7_vocabulary_build_witness :
    sorted_vocab ["a b", "b c"] = ["a", "b", "c"] :=
  (C7_vocabulary_build []).1

/-- Totality of the row comparison by dancer name. -/
theorem dancerLe_total : ∀ a b : Row, dancerLe a b = true ∨ dancerLe b a = true := by
  rintro ⟨da, _, _, _, _, _⟩ ⟨db, _, _, _, _, _⟩
  simp only [dancerLe]
  cases da <;> cases db <;> simp
  exact lexLe_total _ _

/-- Transitivity of the row comparison by dancer name. -/
theorem dancerLe_trans : ∀ a b c : Row,
    dancerLe a b = true → dancerLe b c = true → dancerLe a c = true := by
  rintro ⟨da, _, _, _, _, _⟩ ⟨db, _, _, _, _, _⟩ ⟨dc, _, _, _, _, _⟩ hab hbc
  simp only [dancerLe] at hab hbc ⊢
  cases da <;> cases db <;> cases dc <;> simp_all
  exact lexLe_trans _ _ _ hab hbc

/-- Each row satisfies the bucket predicate of exactly one By Dance
target. -/
theorem bucketPred_exactlyOne (r : Row) :
    danceTargets.countP (fun tg => bucketPred tg r) = 1 := by
  cases hc : r.category with
  | none => simp [danceTargets, bucketPred, isinFilter, hc]
  | some c =>
    by_cases h1 : c = "W"
    · subst h1; simp [danceTargets, bucketPred, isinFilter, mainCategories, hc]
    · by_cases h2 : c = "T"
      · subst h2; simp [danceTargets, bucketPred, isinFilter, mainCategories, hc]
      · by_cases h3 : c = "F"
        · subst h3; simp [danceTargets, bucketPred, isinFilter, mainCategories, hc]
        · by_cases h4 : c = "Q"
          · subst h4; simp [danceTargets, bucketPred, isinFilter, mainCategories, hc]
          · by_cases h5 : c = "V"
            · subst h5; simp [danceTargets, bucketPred, isinFilter, mainCategories, hc]
            · simp [danceTargets, bucketPred, isinFilter, mainCategories, hc,
                    h1, h2, h3, h4, h5]

/-- C5: the By Dance view renders the buckets W, T, F, Q, V, Other in
that fixed order; every row satisfies exactly one bucket predicate
(Other receives exactly the rows whose category is outside the named
set); and each rendered bucket is a permutation of the rows of the
filtered table satisfying its predicate, sorted by dancer name. -/
theorem C5_byDance_partition (t : List Row) :
    (byDanceBuckets t).map Prod.fst = danceTargets
    ∧ (∀ r : Row, danceTargets.countP (fun tg => bucketPred tg r) = 1)
    ∧ (∀ tg rows, (tg, rows) ∈ byDanceBuckets t →
        List.Perm rows (t.filter (bucketPred tg))
        ∧ rows.Pairwise (fun a b => dancerLe a b = true)) := by
  refine ⟨by simp [byDanceBuckets, Function.comp_def], fun r => bucketPred_exactlyOne r, ?_⟩
  intro tg rows h
  simp only [byDanceBuckets, List.mem_map] at h
  obtain ⟨tg2, htg2, heq⟩ := h
  have h1 : tg2 = tg := congrArg Prod.fst heq
  have h2 : rows = sortByDancer (t.filter (bucketPred tg2)) :=
    (congrArg Prod.snd heq).symm
  subst h1
  subst h2
  constructor
  · exact List.perm_insertionSort _ _
  · haveI : IsTotal Row (fun a b => dancerLe a b = true) := ⟨dancerLe_total⟩
    haveI : IsTrans Row (fun a b => dancerLe a b = true) := ⟨dancerLe_trans⟩
    exact List.sorted_insertionSort _ _

/-- C5 witness: the bucket membership clause applied to a concrete
table and the W bucket. -/
theorem C5_byDance_partition_witness :
    List.Perm (sortByDancer ([rowSpin].filter (bucketPred "W")))
        ([rowSpin].filter (bucketPred "W"))
    ∧ (sortByDancer ([rowSpin].filter (bucketPred "W"))).Pairwise
        (fun a b => dancerLe a b = true) :=
  (C5_byDance_partition [rowSpin]).2.2 "W"
    (sortByDancer ([rowSpin].filter (bucketPred "W"))) (by decide)

/-- C1 counterexample: the add path applies the append to the cached
snapshot, not to a freshly fetched copy.  With a stale empty cached
snapshot and a one-row remote table, the written table drops the remote
row, differing from an append to the fresh read. -/
theorem C1_add_counterexample :
    (registerAdd { remote := [rowA], cache := some [] } rowB).remote
      ≠ freshRead { remote := [rowA], cache := some [] } ++ [rowB] := by
  decide

/-- C1 (amended): the update and delete operations re-fetch the
authoritative table with a fresh cache-bypassing read immediately
before applying the single-row change, so their outcome is independent
of the cached snapshot; the add operation instead appends the new row
to the table returned by the cached load, the cached snapshot whenever
one exists, and writes that back. -/
theorem C1_mutation_refetch (rem : List Row) (c c2 : Option (List Row))
    (i : Nat) (e : EditValues) (uf : Bool) (ur : Option String)
    (r : Row) (tc : List Row) :
    (editSubmit { remote := rem, cache := c } i e uf ur).store.remote
      = (editSubmit { remote := rem, cache := c2 } i e uf ur).store.remote
    ∧ (editSubmit { remote := rem, cache := c } i e uf ur).wrote
      = (editSubmit { remote := rem, cache := c2 } i e uf ur).wrote
    ∧ deleteSubmit { remote := rem, cache := c } i
      = deleteSubmit { remote := rem, cache := c2 } i
    ∧ (registerAdd { remote := rem, cache := some tc } r).remote = tc ++ [r]
    ∧ (registerAdd { remote := rem, cache := none } r).remote = rem ++ [r] := by
  refine ⟨?_, ?_, rfl, rfl, rfl⟩ <;> cases uf <;> cases ur <;> rfl

/-- C8: during an update with a supplied image file, a failed upload
aborts the whole update before any table access: no write is attempted
(the surfaced error and st.stop of app.py lines 529-530) and the store,
remote table included, is left unchanged; when the upload succeeds the
row update written to the freshly read remote table carries the
uploaded link in the image cell, so the upload precedes the table
write and its result feeds the write. -/
theorem C8_upload_failfast (s : StoreState) (i : Nat) (e : EditValues) :
    (editSubmit s i e true none).wrote = false
    ∧ (editSubmit s i e true none).store = s
    ∧ (∀ link : String,
        (editSubmit s i e true (some link)).wrote = true
        ∧ (editSubmit s i e true (some link)).store.remote
            = setRowAt (freshRead s) i (updateRowCells e link)) :=
  ⟨rfl, rfl, fun _ => ⟨rfl, rfl⟩⟩

/-- C10: evaluation of the alphabet-index bucketing loop at its failing
inputs, with the identity transliterator (pykakasi leaves ASCII input
unchanged).  An empty-string dancer inherits the bucket of the previous
dancer through the stale romaji variable: after Alice it lands in
bucket A, after Bob in bucket B, so the assignment is not a function of
the own name and the catch-all bucket is missed; and when the first
dancer is empty or missing, the loop reads the never-assigned romaji
variable, the python UnboundLocalError, modelled as the aborted
result. -/
theorem C10_initials_stale_variable :
    dancerInitials (fun s => some s) [some "Alice", some ""] = some ["A", "A"]
    ∧ dancerInitials (fun s => some s) [some "Bob", some ""] = some ["B", "B"]
    ∧ dancerInitials (fun s => some s) [some ""] = none
    ∧ dancerInitials (fun s => some s) [none] = none := by
  refine ⟨rfl, rfl, rfl, rfl⟩

/-- Computation rule for the first-index column lookup. -/
theorem colIdx_eq_some (name : String) : ∀ (l : List String) (i : Nat),
    i < l.length →
    (∀ k, k < i → (l.getD k "" == name) = false) →
    (l.getD i "" == name) = true →
    colIdx name l = some i := by
  intro l
  induction l with
  | nil => intro i hi _ _; simp at hi
  | cons h hs ih =>
    intro i hi hk hpi
    cases i with
    | zero =>
      simp only [List.getD_cons_zero] at hpi
      simp [colIdx, hpi]
    | succ n =>
      have h0 : (h == name) = false := by
        have := hk 0 (Nat.succ_pos n)
        simpa using this
      have hrec := ih n (by simpa using hi)
        (fun k hkn => by simpa using hk (k + 1) (by omega))
        (by simpa using hpi)
      simp [colIdx, h0, hrec]

/-- Column contents after the memo and platform fill steps of the
normalizer, for a table whose first memo column sits at the original
header count and whose first platform column sits at index 2. -/
theorem fill_pipeline_cols (hs3 : List String) (rows : List (List (Option String)))
    (H : Nat) (h4 : 4 ≤ H)
    (hlen : ∀ r ∈ rows, r.length = H)
    (hF1 : colIdx "メモ" hs3 = some H)
    (hF2 : colIdx "platform" hs3 = some 2) :
    colValues "メモ"
      (fillCol "platform" "YouTube" (fillCol "メモ" ""
        { headers := hs3, rows := rows.map (fun r => r ++ [some ""]) }))
      = some (rows.map (fun _ => some ""))
    ∧ colValues "platform"
      (fillCol "platform" "YouTube" (fillCol "メモ" ""
        { headers := hs3, rows := rows.map (fun r => r ++ [some ""]) }))
      = some (rows.map (fun r => some ((r.getD 2 none).getD "YouTube"))) := by
  simp only [fillCol, hF1, hF2, colValues, List.map_map, Option.map_some]
  constructor
  · refine congrArg some (List.map_congr_left ?_)
    intro r hr
    have hrl : r.length = H := hlen r hr
    simp only [Function.comp_apply]
    have hgot : (r ++ [some ""]).getD H none = some "" := by
      simp [List.getD_eq_getElem?_getD, List.getElem?_append_right, hrl]
    rw [hgot]
    have h2H : (2 : Nat) ≠ H := by omega
    simp [List.getD_eq_getElem?_getD, List.getElem?_set_ne h2H,
          List.getElem?_set_self, hrl]
  · refine congrArg some (List.map_congr_left ?_)
    intro r hr
    have hrl : r.length = H := hlen r hr
    simp only [Function.comp_apply]
    have hgot : (r ++ [some ""]).getD H none = some "" := by
      simp [List.getD_eq_getElem?_getD, List.getElem?_append_right, hrl]
    rw [hgot]
    have hH2 : H ≠ (2 : Nat) := by omega
    have h2r : (2 : Nat) < r.length := by omega
    have hset2 : ∀ v : Option String,
        ((r ++ [some ""]).set H v)[2]? = some (r.getD 2 none) := by
      intro v
      rw [List.getElem?_set_ne hH2, List.getElem?_append_left (by omega)]
      rw [List.getD_eq_getElem?_getD]
      cases hx : r[2]? with
      | none =>
        have hle : r.length ≤ 2 := List.getElem?_eq_none_iff.mp hx
        omega
      | some cell => simp [hx]
    have hb2 : (2 : Nat) < ((r ++ [some ""]).set H (some "")).length := by
      simp [hrl]
      omega
    simp [List.getD_eq_getElem?_getD, List.getElem?_set_self, hrl, hset2, hb2]
    have hbY : (2 : Nat) < (r ++ [some ""]).length := by
      simp [hrl]
      omega
    rw [List.getElem?_set_self hbY, List.getElem?_append_left h2r]
    simp

/-- C9 (amended): schema normalization of the loaded table.  When any
of the four required columns is absent after header stripping, the load
fails with an error listing exactly the missing names in the required
order.  Otherwise, when no memo column is named, the memo column of the
loaded table is defaulted to the empty string for every row regardless
of the column count (the positional sixth-column fallback described by
the claim sits in unreachable code), and the platform column is mapped
positionally from column index 2 with empty cells defaulted to the
fixed value. -/
theorem C9_schema_normalization (t : RawTable)
    (hw : ∀ r ∈ t.rows, r.length = t.headers.length)
    (hm : "メモ" ∉ t.headers.map (fun h => pyStrip h))
    (hp : ∀ k, k < 2 → (t.headers.map (fun h => pyStrip h)).getD k "" ≠ "platform") :
    (requiredCols.filter (fun c => !((t.headers.map (fun h => pyStrip h)).contains c)) ≠ [] →
      loadTable t = Except.error
        (requiredCols.filter (fun c => !((t.headers.map (fun h => pyStrip h)).contains c))))
    ∧ (requiredCols.filter (fun c => !((t.headers.map (fun h => pyStrip h)).contains c)) = [] →
        okColValues "メモ" (loadTable t) = some (t.rows.map (fun _ => some ""))
        ∧ okColValues "platform" (loadTable t)
            = some (t.rows.map (fun r => some ((r.getD 2 none).getD "YouTube")))) := by
  constructor
  · intro hne
    have hfalse : ((requiredCols.filter
        (fun c => !((t.headers.map (fun h => pyStrip h)).contains c))).isEmpty) = false := by
      rw [List.isEmpty_eq_false]
      exact hne
    simp only [loadTable, stripHeaders]
    rw [hfalse]
    simp
  · intro hemp
    have htrue : ((requiredCols.filter
        (fun c => !((t.headers.map (fun h => pyStrip h)).contains c))).isEmpty) = true := by
      rw [List.isEmpty_iff]
      exact hemp
    have hload : loadTable t = Except.ok (fillCol "platform" "YouTube"
        (fillCol "メモ" "" (ensurePlatform (ensureMemo (stripHeaders t))))) := by
      simp only [loadTable, stripHeaders]
      rw [htrue]
      simp
    have hreq : ∀ c ∈ requiredCols, c ∈ t.headers.map (fun h => pyStrip h) := by
      intro c hc
      have hthis := List.filter_eq_nil_iff.mp hemp c hc
      simp only [List.mem_map]
      simp at hthis
      exact hthis
    have hfin : requiredCols.toFinset ⊆ (t.headers.map (fun h => pyStrip h)).toFinset := by
      intro c hc
      rw [List.mem_toFinset] at *
      exact hreq c hc
    have hcard4 : requiredCols.toFinset.card = 4 := by decide
    have h4 : 4 ≤ (t.headers.map (fun h => pyStrip h)).length := by
      calc 4 = requiredCols.toFinset.card := hcard4.symm
        _ ≤ (t.headers.map (fun h => pyStrip h)).toFinset.card := Finset.card_le_card hfin
        _ ≤ (t.headers.map (fun h => pyStrip h)).length := List.toFinset_card_le _
    have hlenmap : (t.headers.map (fun h => pyStrip h)).length = t.headers.length :=
      List.length_map _ _
    set hs := t.headers.map (fun h => pyStrip h) with hhs
    have hmC : (hs.contains "メモ") = false := by
      cases hcc : hs.contains "メモ" with
      | false => rfl
      | true => exact absurd (by simp at hcc; exact hcc) hm
    have hstrip : stripHeaders t = { headers := hs, rows := t.rows } := by
      rw [hhs]
      rfl
    have hEM : ensureMemo { headers := hs, rows := t.rows } = { headers := hs ++ ["メモ"], rows := t.rows.map (fun r => r ++ [some ""]) } := by
      simp only [ensureMemo, hmC]
      simp
    have hgdmem : ∀ k, k < hs.length → hs.getD k "" ∈ hs := by
      intro k hk
      rw [List.getD_eq_getElem?_getD, List.getElem?_eq_getElem hk]
      simp only [Option.getD_some]
      exact List.getElem_mem hk
    have hmk : ∀ k, k < hs.length → (hs.getD k "" == "メモ") = false := by
      intro k hk
      rw [beq_eq_false_iff_ne]
      intro heq
      exact hm (heq ▸ hgdmem k hk)
    have hgdk : ∀ k, k < hs.length →
        (hs ++ ["メモ"]).getD k "" = hs.getD k "" := by
      intro k hk
      rw [List.getD_eq_getElem?_getD, List.getD_eq_getElem?_getD,
          List.getElem?_append_left hk]
    have hgdH : (hs ++ ["メモ"]).getD hs.length "" = "メモ" := by
      rw [List.getD_eq_getElem?_getD, List.getElem?_append_right (le_refl _)]
      simp
    have hpk : ∀ k, k < 2 → ((hs ++ ["メモ"]).getD k "" == "platform") = false := by
      intro k hk
      rw [hgdk k (by omega), beq_eq_false_iff_ne]
      exact hp k hk
    have hrowlen : ∀ r ∈ t.rows, r.length = hs.length := by
      intro r hr
      rw [hw r hr, ← hlenmap]
    by_cases hpl : ((hs ++ ["メモ"]).getD 2 "" == "platform") = true
    · have hEP : ensurePlatform { headers := hs ++ ["メモ"], rows := t.rows.map (fun r => r ++ [some ""]) } = { headers := hs ++ ["メモ"], rows := t.rows.map (fun r => r ++ [some ""]) } := by
        simp only [ensurePlatform]
        rw [if_pos (by simp; omega), if_pos hpl]
      have hF2 : colIdx "platform" (hs ++ ["メモ"]) = some 2 := by
        apply colIdx_eq_some "platform" _ 2 (by simp; omega) _ hpl
        intro k hk
        exact hpk k hk
      have hF1 : colIdx "メモ" (hs ++ ["メモ"]) = some hs.length := by
        apply colIdx_eq_some "メモ" _ hs.length (by simp) _ (by rw [hgdH]; decide)
        intro k hk
        rw [hgdk k hk]
        exact hmk k hk
      rw [hload, hstrip, hEM, hEP]
      have hmain := fill_pipeline_cols (hs ++ ["メモ"]) t.rows hs.length h4 hrowlen hF1 hF2
      exact ⟨hmain.1, hmain.2⟩
    · have hEP : ensurePlatform { headers := hs ++ ["メモ"], rows := t.rows.map (fun r => r ++ [some ""]) } = { headers := (hs ++ ["メモ"]).set 2 "platform", rows := t.rows.map (fun r => r ++ [some ""]) } := by
        simp only [ensurePlatform]
        rw [if_pos (by simp; omega), if_neg hpl]
      have hsetk : ∀ k, k ≠ 2 → ((hs ++ ["メモ"]).set 2 "platform").getD k ""
          = (hs ++ ["メモ"]).getD k "" := by
        intro k hk
        rw [List.getD_eq_getElem?_getD, List.getD_eq_getElem?_getD,
            List.getElem?_set_ne (by omega)]
      have hset2v : ((hs ++ ["メモ"]).set 2 "platform").getD 2 "" = "platform" := by
        rw [List.getD_eq_getElem?_getD, List.getElem?_set_self (by simp; omega)]
        simp
      have hF2 : colIdx "platform" ((hs ++ ["メモ"]).set 2 "platform") = some 2 := by
        apply colIdx_eq_some "platform" _ 2 (by simp; omega)
        · intro k hk
          rw [hsetk k (by omega)]
          exact hpk k hk
        · rw [hset2v]
          decide
      have hF1 : colIdx "メモ" ((hs ++ ["メモ"]).set 2 "platform") = some hs.length := by
        apply colIdx_eq_some "メモ" _ hs.length (by simp)
        · intro k hk
          by_cases hk2 : k = 2
          · subst hk2
            rw [hset2v]
            decide
          · rw [hsetk k hk2, hgdk k hk]
            exact hmk k hk
        · rw [hsetk hs.length (by omega), hgdH]
          decide
      rw [hload, hstrip, hEM, hEP]
      have hmain := fill_pipeline_cols ((hs ++ ["メモ"]).set 2 "platform") t.rows hs.length h4 hrowlen hF1 hF2
      exact ⟨hmain.1, hmain.2⟩

/-- C9 counterexample: on a six-column table with no named memo column,
the loaded memo column is defaulted to the empty string and is not the
value of the sixth column (index 5): the claimed positional fallback is
unreachable code inside the upload helper (app.py lines 268-271, after
the returns of the surrounding function). -/
theorem C9_memo_fallback_counterexample :
    okColValues "メモ" (loadTable rawSixCols) = some [some ""]
    ∧ 6 ≤ rawSixCols.headers.length
    ∧ "メモ" ∉ rawSixCols.headers
    ∧ okColValues "メモ" (loadTable rawSixCols)
        ≠ some (rawSixCols.rows.map (fun r => r.getD 5 none)) := by
  refine ⟨by decide, by decide, by decide, by decide⟩

/-- C9 witness: the amended theorem applied to the five-column sample
table. -/
theorem C9_schema_normalization_witness :
    okColValues "メモ" (loadTable rawFiveCols)
      = some (rawFiveCols.rows.map (fun _ => some ""))
    ∧ okColValues "platform" (loadTable rawFiveCols)
      = some (rawFiveCols.rows.map (fun r => some ((r.getD 2 none).getD "YouTube"))) :=
  (C9_schema_normalization rawFiveCols (by decide) (by decide) (by decide)).2 (by decide)

/-- C3 witness: the pass-through applied to a concrete table. -/
theorem C3_empty_filters_identity_witness :
    applyFilters [rowA, rowB] [] [] [] = [rowA, rowB] :=
  C3_empty_filters_identity [rowA, rowB]

/-- C1 witness: the cached-add clause of the amended statement at a
concrete store. -/
theorem C1_mutation_refetch_witness :
    (registerAdd { remote := [rowA], cache := some [] } rowB).remote = [] ++ [rowB] :=
  (C1_mutation_refetch [rowA] none none 0 ⟨"", "", "", "", ""⟩ false none rowB []).2.2.2.1

/-- C8 witness: the fail-fast clause at a concrete store. -/
theorem C8_upload_failfast_witness :
    (editSubmit { remote := [rowA], cache := none } 0
      ⟨"Bob", "T", "img", "vid", "m"⟩ true none).wrote = false :=
  (C8_upload_failfast { remote := [rowA], cache := none } 0 ⟨"Bob", "T", "img", "vid", "m"⟩).1

end VideoApp
